import Mathlib

/-!
Verification of the action-intention core against its specification.

The Go sources are shallowly embedded: UUIDs become natural numbers, byte
strings become lists of naturals, Go maps become association lists whose list
order stands for one iteration order of the map, and fallible functions return
`Except`/`Option` (an `Option String` in the second component of a result pair
stands for Go's trailing `error` value). Randomness that Go samples internally
(RSA key generation, AES keys, GCM nonces) is passed in as explicit parameters.
Cryptographic primitives from the Go standard library (AES-GCM, RSA-OAEP),
which are not part of this repository, are modelled symbolically as idealized
operations; the repository's own glue code in `pkg/crypto/crypto.go` is
translated faithfully. The floating-point `haversine` helper is abstracted as
an explicit distance-function parameter `hv` returning exact rationals.
-/

/-- UUIDs (`github.com/google/uuid`) are opaque identifiers compared only for
equality; they are modelled as natural numbers. -/
abbrev UUID := Nat

/-- `strings.EqualFold` from the Go standard library, modelled as equality of
lower-cased character sequences (simple case folding). -/
def eqFold (a b : String) : Bool :=
  a.data.map Char.toLower == b.data.map Char.toLower

/-- Lookup `m[k]` on a Go map represented as an association list: the value at
the first binding whose key is `k`. -/
def lookupKey {β : Type} : List (Nat × β) → Nat → Option β
  | [], _ => none
  | (k1, v1) :: rest, k => if k1 = k then some v1 else lookupKey rest k

/-- Assignment `m[k] = v` on a Go map represented as an association list:
replaces the binding for `k` in place, or appends it when absent. -/
def mapInsert {β : Type} : List (Nat × β) → Nat → β → List (Nat × β)
  | [], k, v => [(k, v)]
  | (k1, v1) :: rest, k, v =>
      if k1 = k then (k, v) :: rest else (k1, v1) :: mapInsert rest k v

namespace crypto

/-- Injective encoding of a byte string into one natural number, used to build
the symbolic GCM authentication tag. -/
def encodeList : List Nat → Nat
  | [] => 0
  | a :: rest => Nat.pair a (encodeList rest) + 1

/-- Modelled from the spec: the AES-256-GCM authentication tag computed by the
Go standard library (`crypto/cipher`, not part of this repository), idealized
as an injective function of the key, nonce and AAD. -/
def gcmTag (key nonce aad : List Nat) : Nat :=
  Nat.pair (encodeList key) (Nat.pair (encodeList nonce) (encodeList aad))

/-- Modelled from the spec: `cipher.AEAD.Seal` for AES-256-GCM (Go standard
library, not part of this repository), idealized as an authenticated encoding:
the plaintext followed by a tag binding the key, nonce and AAD. -/
def gcmSeal (key nonce plaintext aad : List Nat) : List Nat :=
  plaintext ++ [gcmTag key nonce aad]

/-- Modelled from the spec: `cipher.AEAD.Open` for AES-256-GCM (Go standard
library, not part of this repository): opening succeeds exactly when the
trailing tag matches the supplied key, nonce and AAD. -/
def gcmOpen (key nonce ct aad : List Nat) : Option (List Nat) :=
  if ct.getLast? = some (gcmTag key nonce aad) then some ct.dropLast else none

/-- Modelled from the spec: the decoded content of a PEM block. RSA keys are
identified by the seed of the generating randomness; `otherKey` stands for a
well-formed PEM block that does not hold an RSA key in the expected encoding. -/
inductive PEMContent
  | rsaPrivate (seed : Nat)
  | rsaPublic (seed : Nat)
  | otherKey
deriving DecidableEq

/-- A PEM byte string, abstracted: `none` stands for bytes in which
`pem.Decode` finds no block. -/
abbrev PEMBytes := Option PEMContent

/-- Modelled from the spec: `rsa.EncryptOAEP` (Go standard library, not part of
this repository), idealized as a symbolic wrap of the message under the public
key. -/
def rsaEncryptOAEP (pubSeed : Nat) (msg : List Nat) : List Nat := pubSeed :: msg

/-- Modelled from the spec: `rsa.DecryptOAEP` (Go standard library, not part of
this repository): unwrapping succeeds exactly when the ciphertext was produced
under the matching public key. -/
def rsaDecryptOAEP (privSeed : Nat) (ct : List Nat) : Option (List Nat) :=
  match ct with
  | [] => none
  | p :: msg => if p = privSeed then some msg else none

/-- The error kinds produced by `Encrypt`/`Decrypt` in `pkg/crypto/crypto.go`,
one constructor per `fmt.Errorf` site that the embedded paths can reach. -/
inductive CryptoError
  | pemDecodeFailed
  | parseKeyFailed
  | notRSAKey
  | keyDecryptFailed
  | ciphertextTooShort
  | authFailed
deriving DecidableEq

/-- `GenerateKeys` (pkg/crypto/crypto.go): creates a 2048-bit RSA key pair as
(PKCS#1 private PEM, PKIX public PEM); the sampling randomness is passed
explicitly as `seed`. -/
def GenerateKeys (seed : Nat) : PEMBytes × PEMBytes :=
  (some (.rsaPrivate seed), some (.rsaPublic seed))

/-- `gcm.NonceSize()` for AES-GCM: 12 bytes. -/
def nonceSize : Nat := 12

/-- `Encrypt` (pkg/crypto/crypto.go): hybrid encryption. The freshly sampled
32-byte AES key and 12-byte GCM nonce are passed explicitly as `aesKey` and
`nonce`; Go prepends the nonce to the GCM output (`gcm.Seal(nonce, nonce,
data, aad)`) and wraps the AES key with RSA-OAEP under the recipient's public
key parsed from PEM/PKIX. -/
def Encrypt (aesKey nonce data aad : List Nat) (publicKeyPEM : PEMBytes) :
    Except CryptoError (List Nat × List Nat) :=
  let encryptedData := nonce ++ gcmSeal aesKey nonce data aad
  match publicKeyPEM with
  | none => .error .pemDecodeFailed
  | some (.rsaPrivate _) => .error .parseKeyFailed
  | some .otherKey => .error .notRSAKey
  | some (.rsaPublic k) => .ok (rsaEncryptOAEP k aesKey, encryptedData)

/-- `Decrypt` (pkg/crypto/crypto.go): hybrid decryption. Parses the private key
from PEM/PKCS#1, unwraps the AES key with RSA-OAEP, rejects ciphertexts
shorter than the 12-byte nonce, splits the leading 12 bytes as the nonce, and
opens the remainder with AES-GCM under the supplied AAD; a GCM authentication
failure (which includes a wrong AAD) is the single tampering error. -/
def Decrypt (encryptedKey encryptedData aad : List Nat) (privateKeyPEM : PEMBytes) :
    Except CryptoError (List Nat) :=
  match privateKeyPEM with
  | none => .error .pemDecodeFailed
  | some (.rsaPublic _) => .error .parseKeyFailed
  | some .otherKey => .error .parseKeyFailed
  | some (.rsaPrivate k) =>
      match rsaDecryptOAEP k encryptedKey with
      | none => .error .keyDecryptFailed
      | some aesKey =>
          if encryptedData.length < nonceSize then .error .ciphertextTooShort
          else
            match gcmOpen aesKey (encryptedData.take nonceSize)
                (encryptedData.drop nonceSize) aad with
            | none => .error .authFailed
            | some plaintext => .ok plaintext

end crypto

/-- `MatchResult` (defined identically in pkg/locations and pkg/people): the
three-valued match verdict. -/
inductive MatchResult
  | NONE
  | POSSIBLE
  | EXACT
deriving DecidableEq

namespace locations

/-- `LocationMatcher` (pkg/locations): de-normalized matching data; the
optional coordinates are exact rationals in place of Go's float64. -/
structure LocationMatcher where
  name : String
  category : String
  lat : Option ℚ
  lon : Option ℚ
deriving DecidableEq

/-- `Location` (pkg/locations); `typ` is the `LocationType` string and
`createdAt` an abstract timestamp. -/
structure Location where
  id : UUID
  name : String
  category : String
  globalID : Option String
  matcher : LocationMatcher
  typ : String
  userID : Option String
  createdAt : Nat
deriving DecidableEq

/-- `LocationMatcher.Match` (pkg/locations): name mismatch is NONE; with
coordinates on both sides the haversine distance decides (≤ 0.05 km EXACT,
> 0.5 km NONE, otherwise POSSIBLE); without coordinates a category match is
EXACT, otherwise POSSIBLE. The floating-point `haversine` helper is abstracted
as the parameter `hv`, returning the distance in kilometres as an exact
rational. -/
def LocationMatcher.Match (hv : ℚ → ℚ → ℚ → ℚ → ℚ) (m : LocationMatcher)
    (localLoc : Location) : MatchResult :=
  if eqFold m.name localLoc.matcher.name then
    match m.lat, m.lon, localLoc.matcher.lat, localLoc.matcher.lon with
    | some mlat, some mlon, some llat, some llon =>
        let distanceKm := hv mlat mlon llat llon
        if distanceKm ≤ 1/20 then .EXACT
        else if distanceKm > 1/2 then .NONE
        else .POSSIBLE
    | _, _, _, _ =>
        if eqFold m.category localLoc.matcher.category then .EXACT
        else .POSSIBLE
  else .NONE

/-- `InMemoryStore` (pkg/locations): the Go map of locations as an association
list (list order = one iteration order of the map). -/
structure InMemoryStore where
  locations : List (UUID × Location)

/-- `InMemoryStore.Add` (pkg/locations): unconditional map assignment,
never an error. -/
def InMemoryStore.Add (s : InMemoryStore) (loc : Location) :
    InMemoryStore × Option String :=
  ({ locations := mapInsert s.locations loc.id loc }, none)

/-- `InMemoryStore.GetByID` (pkg/locations). -/
def InMemoryStore.GetByID (s : InMemoryStore) (id : UUID) :
    Except String Location :=
  match lookupKey s.locations id with
  | some loc => .ok loc
  | none => .error "location not found"

/-- `InMemoryStore.FindByGlobalID` (pkg/locations): first location in
iteration order whose global ID is set and equals the argument. -/
def InMemoryStore.FindByGlobalID (s : InMemoryStore) (globalID : String) :
    Except String Location :=
  match s.locations.find? (fun kv => kv.2.globalID == some globalID) with
  | some kv => .ok kv.2
  | none => .error "location with global ID not found"

/-- `InMemoryStore.ListAllForMatching` (pkg/locations): all locations in
iteration order; never an error. -/
def InMemoryStore.ListAllForMatching (s : InMemoryStore) :
    List Location × Option String :=
  (s.locations.map Prod.snd, none)

end locations

namespace people

/-- `PersonMatcher` (pkg/people). -/
structure PersonMatcher where
  name : String
  handle : Option String
deriving DecidableEq

/-- `Person` (pkg/people). -/
structure Person where
  id : UUID
  name : String
  globalID : Option String
  matcher : PersonMatcher
  userID : Option String
  createdAt : Nat
deriving DecidableEq

/-- `Group` (pkg/people). -/
structure Group where
  id : UUID
  name : String
  memberIDs : List UUID
  createdAt : Nat
deriving DecidableEq

/-- `PersonMatcher.Match` (pkg/people): equal handles on both sides are EXACT,
else an equal name is POSSIBLE, else NONE (all case-insensitive). -/
def PersonMatcher.Match (m : PersonMatcher) (localP : Person) : MatchResult :=
  match m.handle, localP.matcher.handle with
  | some h, some lh =>
      if eqFold h lh then .EXACT
      else if eqFold m.name localP.matcher.name then .POSSIBLE
      else .NONE
  | _, _ =>
      if eqFold m.name localP.matcher.name then .POSSIBLE
      else .NONE

/-- `InMemoryStore` (pkg/people/personmemorystore.go): the Go maps of people
and groups as association lists. -/
structure InMemoryStore where
  people : List (UUID × Person)
  groups : List (UUID × Group)

/-- `InMemoryStore.AddPerson` (pkg/people/personmemorystore.go):
unconditional map assignment, never an error. -/
def InMemoryStore.AddPerson (s : InMemoryStore) (p : Person) :
    InMemoryStore × Option String :=
  ({ s with people := mapInsert s.people p.id p }, none)

/-- `InMemoryStore.GetPerson` (pkg/people/personmemorystore.go). -/
def InMemoryStore.GetPerson (s : InMemoryStore) (id : UUID) :
    Except String Person :=
  match lookupKey s.people id with
  | some p => .ok p
  | none => .error "person not found"

/-- `InMemoryStore.FindByGlobalID` (pkg/people/personmemorystore.go). -/
def InMemoryStore.FindByGlobalID (s : InMemoryStore) (globalID : String) :
    Except String Person :=
  match s.people.find? (fun kv => kv.2.globalID == some globalID) with
  | some kv => .ok kv.2
  | none => .error "person with global ID not found"

/-- `InMemoryStore.ListAllForMatching` (pkg/people/personmemorystore.go). -/
def InMemoryStore.ListAllForMatching (s : InMemoryStore) :
    List Person × Option String :=
  (s.people.map Prod.snd, none)

/-- `InMemoryStore.AddGroup` (pkg/people/personmemorystore.go). -/
def InMemoryStore.AddGroup (s : InMemoryStore) (g : Group) :
    InMemoryStore × Option String :=
  ({ s with groups := mapInsert s.groups g.id g }, none)

/-- `InMemoryStore.GetGroup` (pkg/people/personmemorystore.go). -/
def InMemoryStore.GetGroup (s : InMemoryStore) (id : UUID) :
    Except String Group :=
  match lookupKey s.groups id with
  | some g => .ok g
  | none => .error "group not found"

/-- `InMemoryStore.AddMemberToGroup` (pkg/people/personmemorystore.go): looks
up the group (error when absent), is a no-op when the person id is already a
member, and otherwise appends the person id to the membership. Note that the
people map is not consulted. -/
def InMemoryStore.AddMemberToGroup (s : InMemoryStore) (groupID personID : UUID) :
    InMemoryStore × Option String :=
  match lookupKey s.groups groupID with
  | none => (s, some "group not found")
  | some g =>
      if personID ∈ g.memberIDs then (s, none)
      else
        let g2 := { g with memberIDs := g.memberIDs ++ [personID] }
        ({ s with groups := mapInsert s.groups groupID g2 }, none)

end people

namespace firestore

/-- `PeopleStore` (internal/storage/firestore/people_firestore.go): document
collections keyed by the entity UUID (the Go code keys documents by the UUID's
canonical string; the two key spaces are in bijection). -/
structure PeopleStore where
  groups : List (UUID × people.Group)
  people : List (UUID × people.Person)

/-- `PeopleStore.AddMemberToGroup`
(internal/storage/firestore/people_firestore.go): inside one transaction,
first verifies that the person document exists (error when absent), then
applies `firestore.ArrayUnion(personID)` to the group's member array
(`tx.Update` fails when the group document is missing). -/
def PeopleStore.AddMemberToGroup (s : PeopleStore) (groupID personID : UUID) :
    PeopleStore × Option String :=
  match lookupKey s.people personID with
  | none => (s, some "person does not exist")
  | some _ =>
      match lookupKey s.groups groupID with
      | none => (s, some "no document to update")
      | some g =>
          let newMembers :=
            if personID ∈ g.memberIDs then g.memberIDs
            else g.memberIDs ++ [personID]
          let g2 := { g with memberIDs := newMembers }
          ({ s with groups := mapInsert s.groups groupID g2 }, none)

end firestore

namespace intentions

/-- `Target` (pkg/intentions): the closed polymorphic target variant,
`LocationTarget` or `ProximityTarget`. -/
inductive Target
  | location (locationID : UUID)
  | proximity (personIDs : List UUID) (groupIDs : List UUID)
deriving DecidableEq

/-- `Intention` (pkg/intentions). -/
structure Intention where
  id : UUID
  user : String
  participants : List String
  action : String
  targets : List Target
  startTime : Nat
  endTime : Nat
  createdAt : Nat
deriving DecidableEq

end intentions

namespace sharing

/-- `SharedPayload` (pkg/sharing/payload.go): one intention plus the Go maps of
related locations, people and groups, keyed by the sender's UUIDs, as
association lists (list order = one iteration order of the map). -/
structure SharedPayload where
  intention : intentions.Intention
  locations : List (UUID × locations.Location)
  groups : List (UUID × people.Group)
  people : List (UUID × people.Person)
deriving DecidableEq

end sharing

namespace reconciliation

/-- `MappingResult` (pkg/reconciliation/reconcile.go): the foreign→local id
maps, as association lists built in payload iteration order. -/
structure MappingResult where
  locationMappings : List (UUID × UUID)
  personMappings : List (UUID × UUID)
deriving DecidableEq

/-- The `locations.Store` operations consumed by the reconciler. A list read
returns its result slice together with Go's trailing error value. -/
structure LocationsStore where
  listAllForMatching : List locations.Location × Option String
  findByGlobalID : String → Except String locations.Location

/-- The `people.Store` operations consumed by the reconciler. -/
structure PeopleStore where
  listAllForMatching : List people.Person × Option String
  findByGlobalID : String → Except String people.Person

/-- The reconciler's view of a `locations.InMemoryStore`. -/
def locationsStoreOf (s : locations.InMemoryStore) : LocationsStore where
  listAllForMatching := s.ListAllForMatching
  findByGlobalID := s.FindByGlobalID

/-- The reconciler's view of a `people.InMemoryStore`. -/
def peopleStoreOf (s : people.InMemoryStore) : PeopleStore where
  listAllForMatching := s.ListAllForMatching
  findByGlobalID := s.FindByGlobalID

/-- `Reconciler` (pkg/reconciliation/reconcile.go). -/
structure Reconciler where
  localLocationStore : LocationsStore
  localPersonStore : PeopleStore

/-- The inner matcher loop of `ProcessPayload`
(pkg/reconciliation/reconcile.go) over the local location snapshot, carrying
`bestMatchID` and `bestMatchLevel`: a first EXACT match breaks the loop, a
POSSIBLE match is retained only while `bestMatchLevel` is still NONE. -/
def locMatchLoop (hv : ℚ → ℚ → ℚ → ℚ → ℚ) (m : locations.LocationMatcher)
    (bestMatchID : Option UUID) (bestMatchLevel : MatchResult) :
    List locations.Location → Option UUID
  | [] => bestMatchID
  | localLoc :: rest =>
      let matchLevel := m.Match hv localLoc
      if matchLevel = .EXACT then some localLoc.id
      else if matchLevel = .POSSIBLE ∧ bestMatchLevel = .NONE then
        locMatchLoop hv m (some localLoc.id) .POSSIBLE rest
      else locMatchLoop hv m bestMatchID bestMatchLevel rest

/-- The inner matcher loop of `ProcessPayload` over the local person
snapshot. -/
def personMatchLoop (m : people.PersonMatcher) (bestMatchID : Option UUID)
    (bestMatchLevel : MatchResult) : List people.Person → Option UUID
  | [] => bestMatchID
  | localPerson :: rest =>
      let matchLevel := m.Match localPerson
      if matchLevel = .EXACT then some localPerson.id
      else if matchLevel = .POSSIBLE ∧ bestMatchLevel = .NONE then
        personMatchLoop m (some localPerson.id) .POSSIBLE rest
      else personMatchLoop m bestMatchID bestMatchLevel rest

/-- One iteration of the location loop of `ProcessPayload`: the global-ID
lookup is tried first; only when it yields nothing is the matcher scan over the
local snapshot consulted. -/
def reconcileLocation (hv : ℚ → ℚ → ℚ → ℚ → ℚ) (st : LocationsStore)
    (localLocations : List locations.Location)
    (incomingLoc : locations.Location) : Option UUID :=
  let viaGlobal : Option UUID :=
    match incomingLoc.globalID with
    | some g =>
        match st.findByGlobalID g with
        | .ok loc => some loc.id
        | .error _ => none
    | none => none
  match viaGlobal with
  | some i => some i
  | none => locMatchLoop hv incomingLoc.matcher none .NONE localLocations

/-- One iteration of the person loop of `ProcessPayload`. -/
def reconcilePerson (st : PeopleStore) (localPeople : List people.Person)
    (incomingPerson : people.Person) : Option UUID :=
  let viaGlobal : Option UUID :=
    match incomingPerson.globalID with
    | some g =>
        match st.findByGlobalID g with
        | .ok p => some p.id
        | .error _ => none
    | none => none
  match viaGlobal with
  | some i => some i
  | none => personMatchLoop incomingPerson.matcher none .NONE localPeople

/-- The location loop of `ProcessPayload`: emits
`result.LocationMappings[senderID] = finalMatchID` entries in payload
iteration order (payload map keys are distinct, so successive assignments
never overwrite). -/
def processLocations (hv : ℚ → ℚ → ℚ → ℚ → ℚ) (st : LocationsStore)
    (localLocations : List locations.Location) :
    List (UUID × locations.Location) → List (UUID × UUID)
  | [] => []
  | (senderID, incomingLoc) :: rest =>
      match reconcileLocation hv st localLocations incomingLoc with
      | some finalMatchID =>
          (senderID, finalMatchID) :: processLocations hv st localLocations rest
      | none => processLocations hv st localLocations rest

/-- The person loop of `ProcessPayload`. -/
def processPeople (st : PeopleStore) (localPeople : List people.Person) :
    List (UUID × people.Person) → List (UUID × UUID)
  | [] => []
  | (senderID, incomingPerson) :: rest =>
      match reconcilePerson st localPeople incomingPerson with
      | some finalMatchID =>
          (senderID, finalMatchID) :: processPeople st localPeople rest
      | none => processPeople st localPeople rest

/-- `Reconciler.ProcessPayload` (pkg/reconciliation/reconcile.go): loads the
local snapshots once — DISCARDING the store errors, as in
`localLocations, _ := r.localLocationStore.ListAllForMatching(ctx)` —
reconciles locations then people, and returns a nil error on every path. -/
def Reconciler.ProcessPayload (hv : ℚ → ℚ → ℚ → ℚ → ℚ) (r : Reconciler)
    (payload : sharing.SharedPayload) : Except String MappingResult :=
  let localLocations := r.localLocationStore.listAllForMatching.1
  let localPeople := r.localPersonStore.listAllForMatching.1
  .ok
    { locationMappings :=
        processLocations hv r.localLocationStore localLocations payload.locations,
      personMappings :=
        processPeople r.localPersonStore localPeople payload.people }

end reconciliation

namespace app

/-- The slice of `App` (the sharing orchestrator) that `buildSharedPayload`
consumes: the intention list returned by the store `Query` with the empty
`QuerySpec` (i.e. all intentions), and the three entity getters, which the
domain services delegate to their stores unchanged. -/
structure App where
  intentions : List intentions.Intention
  getLocation : UUID → Except String locations.Location
  getPerson : UUID → Except String people.Person
  getGroup : UUID → Except String people.Group

/-- The `PersonIDs` loop of a `ProximityTarget` in `buildSharedPayload`: each
person that loads successfully is inserted into the payload's people map;
failures are skipped. -/
def gatherPersons (a : App) (payload : sharing.SharedPayload) :
    List UUID → sharing.SharedPayload
  | [] => payload
  | personID :: rest =>
      match a.getPerson personID with
      | .ok p =>
          gatherPersons a
            { payload with people := mapInsert payload.people p.id p } rest
      | .error _ => gatherPersons a payload rest

/-- The `GroupIDs` loop of a `ProximityTarget` in `buildSharedPayload`: each
group that loads successfully is inserted into the payload's groups map;
failures are skipped. Group members are not loaded. -/
def gatherGroups (a : App) (payload : sharing.SharedPayload) :
    List UUID → sharing.SharedPayload
  | [] => payload
  | groupID :: rest =>
      match a.getGroup groupID with
      | .ok g =>
          gatherGroups a
            { payload with groups := mapInsert payload.groups g.id g } rest
      | .error _ => gatherGroups a payload rest

/-- The per-target switch of `buildSharedPayload`. -/
def gatherTarget (a : App) (payload : sharing.SharedPayload) :
    intentions.Target → sharing.SharedPayload
  | .location locationID =>
      match a.getLocation locationID with
      | .ok loc =>
          { payload with locations := mapInsert payload.locations loc.id loc }
      | .error _ => payload
  | .proximity personIDs groupIDs =>
      gatherGroups a (gatherPersons a payload personIDs) groupIDs

/-- The target loop of `buildSharedPayload`. -/
def gatherTargets (a : App) (payload : sharing.SharedPayload) :
    List intentions.Target → sharing.SharedPayload
  | [] => payload
  | t :: rest => gatherTargets a (gatherTarget a payload t) rest

/-- `App.buildSharedPayload` (the sharing orchestrator): finds the intention
among all queried intentions (error when absent), then gathers each target's
entities best-effort into initially empty maps. -/
def App.buildSharedPayload (a : App) (intentionID : UUID) :
    Except String sharing.SharedPayload :=
  match a.intentions.find? (fun intent => intent.id == intentionID) with
  | none => .error "intention not found"
  | some targetIntention =>
      .ok (gatherTargets a
        { intention := targetIntention, locations := [], people := [], groups := [] }
        targetIntention.targets)

/-- Restatement of the people-gathering of `buildSharedPayload` in the spec's
vocabulary, used to characterize the amended C5: the people accumulated from
the `personIDs` of proximity targets alone. -/
def gatherPersonsOnly (a : App) (acc : List (UUID × people.Person)) :
    List UUID → List (UUID × people.Person)
  | [] => acc
  | personID :: rest =>
      match a.getPerson personID with
      | .ok p => gatherPersonsOnly a (mapInsert acc p.id p) rest
      | .error _ => gatherPersonsOnly a acc rest

/-- Restatement for the amended C5: the people map produced by the target loop
comes exclusively from the `personIDs` of proximity targets; group membership
lists are never consulted. -/
def gatherPeopleOnly (a : App) (acc : List (UUID × people.Person)) :
    List intentions.Target → List (UUID × people.Person)
  | [] => acc
  | .location _ :: rest => gatherPeopleOnly a acc rest
  | .proximity personIDs _ :: rest =>
      gatherPeopleOnly a (gatherPersonsOnly a acc personIDs) rest

end app

/-- Restatement of the claimed scan rule for locations, in the claim's
vocabulary: the first local entity with an EXACT verdict wins; otherwise the
first with POSSIBLE; otherwise nothing. Compared against the source's
`locMatchLoop`. -/
def firstExactElsePossibleLoc (hv : ℚ → ℚ → ℚ → ℚ → ℚ)
    (m : locations.LocationMatcher) (ls : List locations.Location) : Option UUID :=
  match ls.find? (fun l => m.Match hv l == MatchResult.EXACT) with
  | some l => some l.id
  | none =>
      match ls.find? (fun l => m.Match hv l == MatchResult.POSSIBLE) with
      | some l => some l.id
      | none => none

/-- Restatement of the claimed scan rule for people, in the claim's
vocabulary. Compared against the source's `personMatchLoop`. -/
def firstExactElsePossiblePerson (m : people.PersonMatcher)
    (ls : List people.Person) : Option UUID :=
  match ls.find? (fun p => m.Match p == MatchResult.EXACT) with
  | some p => some p.id
  | none =>
      match ls.find? (fun p => m.Match p == MatchResult.POSSIBLE) with
      | some p => some p.id
      | none => none

/-! ## Concrete sample data (used by witnesses and counterexamples) -/

/-- A constant haversine oracle returning a fixed distance. -/
def hvConst (d : ℚ) : ℚ → ℚ → ℚ → ℚ → ℚ := fun _ _ _ _ => d

/-- A location matcher with name `a`, category `c` and no coordinates. -/
def matcherAC : locations.LocationMatcher :=
  { name := "a", category := "c", lat := none, lon := none }

/-- A location matcher with name `a`, category `c` and coordinates. -/
def matcherACoord : locations.LocationMatcher :=
  { name := "a", category := "c", lat := some 0, lon := some 0 }

/-- A sample location with id 3. -/
def sampleLoc3 : locations.Location :=
  { id := 3, name := "a", category := "c", globalID := none,
    matcher := matcherAC, typ := "USER", userID := none, createdAt := 0 }

/-- A sample location with id 21 and coordinates. -/
def sampleLoc21 : locations.Location :=
  { id := 21, name := "a", category := "c", globalID := some "gp",
    matcher := matcherACoord, typ := "SHARED", userID := none, createdAt := 0 }

/-- A local location whose matcher shares the name `a` but has category `x`:
a POSSIBLE match for `matcherAC`. -/
def samplePossibleLoc : locations.Location :=
  { id := 11, name := "a", category := "x", globalID := none,
    matcher := { name := "a", category := "x", lat := none, lon := none },
    typ := "USER", userID := none, createdAt := 0 }

/-- A local location whose matcher shares name `a` and category `c`:
an EXACT match for `matcherAC`. -/
def sampleExactLoc : locations.Location :=
  { id := 12, name := "a", category := "c", globalID := none,
    matcher := matcherAC, typ := "USER", userID := none, createdAt := 0 }

/-- A foreign location with id 90 carrying global id `gp` and a
non-matching name. -/
def sampleForeignLoc : locations.Location :=
  { id := 90, name := "zz", category := "q", globalID := some "gp",
    matcher := { name := "zz", category := "q", lat := none, lon := none },
    typ := "SHARED", userID := none, createdAt := 0 }

/-- A foreign location with id 90, no global id, matcher `a`/`c`. -/
def sampleForeignLocNoGlobal : locations.Location :=
  { id := 90, name := "a", category := "c", globalID := none,
    matcher := matcherAC, typ := "USER", userID := none, createdAt := 0 }

/-- A sample person with id 7. -/
def samplePerson7 : people.Person :=
  { id := 7, name := "m", globalID := none,
    matcher := { name := "m", handle := none }, userID := none, createdAt := 0 }

/-- A local person with id 31 carrying global id `gq`. -/
def samplePerson31 : people.Person :=
  { id := 31, name := "n", globalID := some "gq",
    matcher := { name := "n", handle := none }, userID := none, createdAt := 0 }

/-- A foreign person with id 91 carrying global id `gq` and a different name. -/
def sampleForeignPerson : people.Person :=
  { id := 91, name := "zz", globalID := some "gq",
    matcher := { name := "zz", handle := none }, userID := none, createdAt := 0 }

/-- An empty group with id 1. -/
def sampleGroup1 : people.Group :=
  { id := 1, name := "g", memberIDs := [], createdAt := 0 }

/-- A group with id 5 whose only member is person 7. -/
def sampleGroup5 : people.Group :=
  { id := 5, name := "g", memberIDs := [7], createdAt := 0 }

/-- An intention with no targets (good enough for reconciler payloads,
which ignore the intention). -/
def sampleIntention : intentions.Intention :=
  { id := 1, user := "u", participants := [], action := "act",
    targets := [], startTime := 0, endTime := 1, createdAt := 0 }

/-- An intention whose single target is proximity to group 5. -/
def sampleIntentionProx : intentions.Intention :=
  { id := 1, user := "u", participants := [], action := "act",
    targets := [intentions.Target.proximity [] [5]],
    startTime := 0, endTime := 1, createdAt := 0 }

/-- An app whose people store holds person 7 and whose groups store holds
group 5 (whose member is person 7); used for the C5 analysis. -/
def sampleAppC5 : app.App :=
  { intentions := [sampleIntentionProx],
    getLocation := fun _ => .error "location not found",
    getPerson := fun pid => if pid = 7 then .ok samplePerson7 else .error "person not found",
    getGroup := fun gid => if gid = 5 then .ok sampleGroup5 else .error "group not found" }

/-- A reconciler-view location store whose list read reports an error
alongside an empty slice. -/
def badLocStore : reconciliation.LocationsStore :=
  { listAllForMatching := ([], some "storage failure"),
    findByGlobalID := fun _ => .error "location with global ID not found" }

/-- A reconciler-view people store with no people. -/
def emptyPeopleView : reconciliation.PeopleStore :=
  { listAllForMatching := ([], none),
    findByGlobalID := fun _ => .error "person with global ID not found" }

/-- A reconciler-view people store whose list read reports an error
alongside an empty slice. -/
def badPeopleView : reconciliation.PeopleStore :=
  { listAllForMatching := ([], some "people storage failure"),
    findByGlobalID := fun _ => .error "person with global ID not found" }

/-- The reconciler over in-memory stores holding locations 11 (POSSIBLE for
`matcherAC`), 12 (EXACT), 21 (global id `gp`), and person 31 (global id
`gq`). -/
def sampleReconciler : reconciliation.Reconciler :=
  { localLocationStore := reconciliation.locationsStoreOf
      ⟨[(11, samplePossibleLoc), (12, sampleExactLoc), (21, sampleLoc21)]⟩,
    localPersonStore := reconciliation.peopleStoreOf ⟨[(31, samplePerson31)], []⟩ }

/-- A payload carrying foreign location 90 (global id `gp`) and foreign
person 91 (global id `gq`). -/
def samplePayloadGlobal : sharing.SharedPayload :=
  { intention := sampleIntention,
    locations := [(90, sampleForeignLoc)],
    groups := [],
    people := [(91, sampleForeignPerson)] }

/-- A payload carrying the foreign location 90 without a global id. -/
def samplePayloadNoGlobal : sharing.SharedPayload :=
  { intention := sampleIntention,
    locations := [(90, sampleForeignLocNoGlobal)],
    groups := [],
    people := [] }

/-- The payload of `samplePayloadGlobal` with its location entries listed in
the other iteration order (a second foreign location 92 added to make the
order visible). -/
def sampleForeignLoc92 : locations.Location :=
  { id := 92, name := "a", category := "c", globalID := none,
    matcher := matcherAC, typ := "USER", userID := none, createdAt := 0 }

/-- Two-entry payload, one iteration order. -/
def samplePayloadOrder1 : sharing.SharedPayload :=
  { intention := sampleIntention,
    locations := [(90, sampleForeignLocNoGlobal), (92, sampleForeignLoc92)],
    groups := [],
    people := [] }

/-- Two-entry payload, the other iteration order. -/
def samplePayloadOrder2 : sharing.SharedPayload :=
  { intention := sampleIntention,
    locations := [(92, sampleForeignLoc92), (90, sampleForeignLocNoGlobal)],
    groups := [],
    people := [] }

/-- A local location (id 1) whose matcher shares the name `a` but has
category `x`: a POSSIBLE (not EXACT) match for `matcherAC`. -/
def tiedLoc1 : locations.Location :=
  { id := 1, name := "a", category := "x", globalID := none,
    matcher := { name := "a", category := "x", lat := none, lon := none },
    typ := "USER", userID := none, createdAt := 0 }

/-- A second local location (id 2), also a POSSIBLE match for `matcherAC`
(name `a`, category `y`). -/
def tiedLoc2 : locations.Location :=
  { id := 2, name := "a", category := "y", globalID := none,
    matcher := { name := "a", category := "y", lat := none, lon := none },
    typ := "USER", userID := none, createdAt := 0 }

/-- An in-memory location store holding the two tied locations, snapshot in
one iteration order. -/
def storeTiedA : locations.InMemoryStore :=
  { locations := [(1, tiedLoc1), (2, tiedLoc2)] }

/-- The same store contents (the same bindings), snapshot in the other
iteration order. -/
def storeTiedB : locations.InMemoryStore :=
  { locations := [(2, tiedLoc2), (1, tiedLoc1)] }

/-- A reconciler observing `storeTiedA`'s snapshot order. -/
def reconcilerTiedA : reconciliation.Reconciler :=
  { localLocationStore := reconciliation.locationsStoreOf storeTiedA,
    localPersonStore := emptyPeopleView }

/-- A reconciler observing `storeTiedB`'s snapshot order. -/
def reconcilerTiedB : reconciliation.Reconciler :=
  { localLocationStore := reconciliation.locationsStoreOf storeTiedB,
    localPersonStore := emptyPeopleView }

/-! ## Helper lemmas -/

@[simp] theorem lookupKey_nil {β : Type} (k : Nat) :
    lookupKey ([] : List (Nat × β)) k = none := rfl

@[simp] theorem lookupKey_cons {β : Type} (k1 k : Nat) (v1 : β)
    (rest : List (Nat × β)) :
    lookupKey ((k1, v1) :: rest) k = if k1 = k then some v1 else lookupKey rest k := rfl

theorem lookupKey_mapInsert_self {β : Type} (l : List (Nat × β)) (k : Nat) (v : β) :
    lookupKey (mapInsert l k v) k = some v := by
  induction l with
  | nil => simp [mapInsert]
  | cons hd tl ih =>
      obtain ⟨k1, v1⟩ := hd
      by_cases h : k1 = k
      · simp [mapInsert, h]
      · simp [mapInsert, h, ih]

theorem lookupKey_mapInsert_ne {β : Type} (l : List (Nat × β)) (k j : Nat) (v : β)
    (hne : j ≠ k) : lookupKey (mapInsert l k v) j = lookupKey l j := by
  have hkj : ¬ k = j := fun h => hne h.symm
  induction l with
  | nil => simp [mapInsert, hkj]
  | cons hd tl ih =>
      obtain ⟨k1, v1⟩ := hd
      by_cases h : k1 = k
      · subst h
        simp [mapInsert, hkj]
      · simp only [mapInsert, if_neg h, lookupKey_cons, ih]

theorem mem_keys_mapInsert {β : Type} (l : List (Nat × β)) (k j : Nat) (v : β) :
    j ∈ (mapInsert l k v).map Prod.fst ↔ j ∈ l.map Prod.fst ∨ j = k := by
  induction l with
  | nil => simp [mapInsert]
  | cons hd tl ih =>
      obtain ⟨k1, v1⟩ := hd
      by_cases h : k1 = k
      · subst h
        constructor
        · intro hmem
          rcases (by simpa [mapInsert] using hmem : j = k1 ∨ j ∈ tl.map Prod.fst) with h1 | h1
          · exact Or.inr h1
          · exact Or.inl (by simp [h1])
        · intro hmem
          rcases hmem with h1 | h1
          · rcases (by simpa using h1 : j = k1 ∨ j ∈ tl.map Prod.fst) with h2 | h2
            · simp [mapInsert, h2]
            · simp [mapInsert, h2]
          · simp [mapInsert, h1]
      · simp only [mapInsert, if_neg h, List.map_cons, List.mem_cons, ih]
        tauto

theorem nodup_keys_mapInsert {β : Type} (l : List (Nat × β)) (k : Nat) (v : β)
    (h : (l.map Prod.fst).Nodup) : ((mapInsert l k v).map Prod.fst).Nodup := by
  induction l with
  | nil => simp [mapInsert]
  | cons hd tl ih =>
      obtain ⟨k1, v1⟩ := hd
      simp only [List.map_cons, List.nodup_cons] at h
      by_cases hk : k1 = k
      · subst hk
        simpa [mapInsert, List.nodup_cons] using h
      · simp only [mapInsert, if_neg hk, List.map_cons, List.nodup_cons]
        refine ⟨?_, ih h.2⟩
        intro hmem
        rcases (mem_keys_mapInsert tl k k1 v).mp hmem with h1 | h1
        · exact h.1 h1
        · exact hk h1

namespace crypto

theorem encodeList_injective :
    ∀ a b : List Nat, encodeList a = encodeList b → a = b
  | [], [], _ => rfl
  | [], _ :: _, h => by simp [encodeList] at h
  | _ :: _, [], h => by simp [encodeList] at h
  | a :: r1, b :: r2, h => by
      simp only [encodeList, Nat.add_right_cancel_iff] at h
      have h2 := congrArg Nat.unpair h
      simp only [Nat.unpair_pair, Prod.mk.injEq] at h2
      rw [h2.1, encodeList_injective r1 r2 h2.2]

theorem gcmTag_inj (key nonce aad key' nonce' aad' : List Nat)
    (h : gcmTag key nonce aad = gcmTag key' nonce' aad') :
    key = key' ∧ nonce = nonce' ∧ aad = aad' := by
  have h1 := congrArg Nat.unpair h
  simp only [gcmTag, Nat.unpair_pair, Prod.mk.injEq] at h1
  have h2 := congrArg Nat.unpair h1.2
  simp only [Nat.unpair_pair, Prod.mk.injEq] at h2
  exact ⟨encodeList_injective _ _ h1.1,
    encodeList_injective _ _ h2.1, encodeList_injective _ _ h2.2⟩

end crypto

theorem lookupKey_eq_none {β : Type} (l : List (Nat × β)) (k : Nat)
    (h : k ∉ l.map Prod.fst) : lookupKey l k = none := by
  induction l with
  | nil => rfl
  | cons hd tl ih =>
      obtain ⟨k1, v1⟩ := hd
      simp only [List.map_cons, List.mem_cons] at h
      push_neg at h
      simp [Ne.symm h.1, ih h.2]

theorem lookupKey_perm {β : Type} (l1 l2 : List (Nat × β)) (hp : l1.Perm l2) :
    (l1.map Prod.fst).Nodup → ∀ k, lookupKey l1 k = lookupKey l2 k := by
  induction hp with
  | nil => intro _ _; rfl
  | cons x p ih =>
      intro hnd k
      obtain ⟨k1, v1⟩ := x
      simp only [List.map_cons, List.nodup_cons] at hnd
      by_cases h : k1 = k
      · simp [h]
      · simp [h, ih hnd.2 k]
  | swap x y l =>
      intro hnd k
      obtain ⟨k1, v1⟩ := x
      obtain ⟨k2, v2⟩ := y
      simp only [List.map_cons, List.nodup_cons, List.mem_cons] at hnd
      by_cases h1 : k1 = k <;> by_cases h2 : k2 = k
      · exact absurd (Or.inl (h2.trans h1.symm)) (fun hh => hnd.1 hh)
      · simp [h1, h2]
      · simp [h1, h2]
      · simp [h1, h2]
  | trans p1 p2 ih1 ih2 =>
      intro hnd k
      have hnd2 := ((p1.map Prod.fst).nodup_iff).mp hnd
      rw [ih1 hnd k, ih2 hnd2 k]

namespace reconciliation

theorem locMatchLoop_possible (hv : ℚ → ℚ → ℚ → ℚ → ℚ)
    (m : locations.LocationMatcher) (b : UUID) (ls : List locations.Location) :
    locMatchLoop hv m (some b) MatchResult.POSSIBLE ls =
      (match ls.find? (fun l => m.Match hv l == MatchResult.EXACT) with
       | some l => some l.id
       | none => some b) := by
  induction ls with
  | nil => simp [locMatchLoop]
  | cons l rest ih =>
      by_cases h : m.Match hv l = MatchResult.EXACT
      · have hb : (m.Match hv l == MatchResult.EXACT) = true := beq_iff_eq.mpr h
        simp [locMatchLoop, h, List.find?_cons, hb]
      · have hb : (m.Match hv l == MatchResult.EXACT) = false :=
          beq_eq_false_iff_ne.mpr h
        have hcond : ¬ (m.Match hv l = MatchResult.POSSIBLE ∧
            MatchResult.POSSIBLE = MatchResult.NONE) := by
          rintro ⟨-, h2⟩
          exact MatchResult.noConfusion h2
        simp [locMatchLoop, h, hcond, List.find?_cons, hb, ih]

theorem locMatchLoop_none (hv : ℚ → ℚ → ℚ → ℚ → ℚ)
    (m : locations.LocationMatcher) (ls : List locations.Location) :
    locMatchLoop hv m none MatchResult.NONE ls =
      firstExactElsePossibleLoc hv m ls := by
  induction ls with
  | nil => simp [locMatchLoop, firstExactElsePossibleLoc]
  | cons l rest ih =>
      rcases hml : m.Match hv l with _ | _ | _
      · have hb1 : (m.Match hv l == MatchResult.EXACT) = false := by
          simp [hml]
        have hb2 : (m.Match hv l == MatchResult.POSSIBLE) = false := by
          simp [hml]
        simp [locMatchLoop, hml, firstExactElsePossibleLoc, List.find?_cons,
          hb1, hb2, ih, firstExactElsePossibleLoc]
      · have hb1 : (m.Match hv l == MatchResult.EXACT) = false := by
          simp [hml]
        have hb2 : (m.Match hv l == MatchResult.POSSIBLE) = true := by
          simp [hml]
        simp only [locMatchLoop, hml, firstExactElsePossibleLoc,
          List.find?_cons, hb1, hb2, locMatchLoop_possible]
        cases h2 : rest.find? (fun l => m.Match hv l == MatchResult.EXACT) <;>
          simp [h2, show (MatchResult.POSSIBLE == MatchResult.EXACT) = false from rfl]
      · have hb1 : (m.Match hv l == MatchResult.EXACT) = true := by
          simp [hml]
        simp [locMatchLoop, hml, firstExactElsePossibleLoc, List.find?_cons, hb1]

theorem personMatchLoop_possible (m : people.PersonMatcher) (b : UUID)
    (ls : List people.Person) :
    personMatchLoop m (some b) MatchResult.POSSIBLE ls =
      (match ls.find? (fun p => m.Match p == MatchResult.EXACT) with
       | some p => some p.id
       | none => some b) := by
  induction ls with
  | nil => simp [personMatchLoop]
  | cons l rest ih =>
      by_cases h : m.Match l = MatchResult.EXACT
      · have hb : (m.Match l == MatchResult.EXACT) = true := beq_iff_eq.mpr h
        simp [personMatchLoop, h, List.find?_cons, hb]
      · have hb : (m.Match l == MatchResult.EXACT) = false :=
          beq_eq_false_iff_ne.mpr h
        have hcond : ¬ (m.Match l = MatchResult.POSSIBLE ∧
            MatchResult.POSSIBLE = MatchResult.NONE) := by
          rintro ⟨-, h2⟩
          exact MatchResult.noConfusion h2
        simp [personMatchLoop, h, hcond, List.find?_cons, hb, ih]

theorem personMatchLoop_none (m : people.PersonMatcher) (ls : List people.Person) :
    personMatchLoop m none MatchResult.NONE ls =
      firstExactElsePossiblePerson m ls := by
  induction ls with
  | nil => simp [personMatchLoop, firstExactElsePossiblePerson]
  | cons l rest ih =>
      rcases hml : m.Match l with _ | _ | _
      · have hb1 : (m.Match l == MatchResult.EXACT) = false := by
          simp [hml]
        have hb2 : (m.Match l == MatchResult.POSSIBLE) = false := by
          simp [hml]
        simp [personMatchLoop, hml, firstExactElsePossiblePerson,
          List.find?_cons, hb1, hb2, ih]
      · have hb1 : (m.Match l == MatchResult.EXACT) = false := by
          simp [hml]
        have hb2 : (m.Match l == MatchResult.POSSIBLE) = true := by
          simp [hml]
        simp only [personMatchLoop, hml, firstExactElsePossiblePerson,
          List.find?_cons, hb1, hb2, personMatchLoop_possible]
        cases h2 : rest.find? (fun p => m.Match p == MatchResult.EXACT) <;>
          simp [h2, show (MatchResult.POSSIBLE == MatchResult.EXACT) = false from rfl]
      · have hb1 : (m.Match l == MatchResult.EXACT) = true := by
          simp [hml]
        simp [personMatchLoop, hml, firstExactElsePossiblePerson,
          List.find?_cons, hb1]

theorem lookupKey_processLocations (hv : ℚ → ℚ → ℚ → ℚ → ℚ)
    (st : LocationsStore) (locals : List locations.Location)
    (pl : List (UUID × locations.Location))
    (hnd : (pl.map Prod.fst).Nodup) (fid : UUID) :
    lookupKey (processLocations hv st locals pl) fid =
      (lookupKey pl fid).bind (fun F => reconcileLocation hv st locals F) := by
  induction pl with
  | nil => simp [processLocations]
  | cons hd rest ih =>
      obtain ⟨k, F⟩ := hd
      simp only [List.map_cons, List.nodup_cons] at hnd
      have ih2 := ih hnd.2
      by_cases hk : k = fid
      · subst hk
        have hrest : lookupKey rest k = none := lookupKey_eq_none rest k hnd.1
        cases hrec : reconcileLocation hv st locals F with
        | none => simp [processLocations, hrec, ih2, hrest]
        | some i => simp [processLocations, hrec]
      · cases hrec : reconcileLocation hv st locals F with
        | none => simp [processLocations, hrec, ih2, hk]
        | some i => simp [processLocations, hrec, ih2, hk]

theorem lookupKey_processPeople (st : PeopleStore)
    (locals : List people.Person) (pl : List (UUID × people.Person))
    (hnd : (pl.map Prod.fst).Nodup) (fid : UUID) :
    lookupKey (processPeople st locals pl) fid =
      (lookupKey pl fid).bind (fun F => reconcilePerson st locals F) := by
  induction pl with
  | nil => simp [processPeople]
  | cons hd rest ih =>
      obtain ⟨k, F⟩ := hd
      simp only [List.map_cons, List.nodup_cons] at hnd
      have ih2 := ih hnd.2
      by_cases hk : k = fid
      · subst hk
        have hrest : lookupKey rest k = none := lookupKey_eq_none rest k hnd.1
        cases hrec : reconcilePerson st locals F with
        | none => simp [processPeople, hrec, ih2, hrest]
        | some i => simp [processPeople, hrec]
      · cases hrec : reconcilePerson st locals F with
        | none => simp [processPeople, hrec, ih2, hk]
        | some i => simp [processPeople, hrec, ih2, hk]

end reconciliation

/-! ## C1 and C2: the hybrid encryption round trip and AAD binding -/

/-- C1: for every plaintext `p`, AAD, and RSA key pair produced by
`GenerateKeys` (together with the per-message AES key and 12-byte nonce that
`Encrypt` samples internally), `Decrypt` applied to `Encrypt`'s output under
the same AAD and the matching private key succeeds and returns exactly `p`. -/
theorem C1_encrypt_decrypt_roundtrip (seed : Nat) (aesKey nonce p aad : List Nat)
    (hnonce : nonce.length = 12) :
    ∃ encryptedKey encryptedData,
      crypto.Encrypt aesKey nonce p aad (crypto.GenerateKeys seed).2 =
        .ok (encryptedKey, encryptedData) ∧
      crypto.Decrypt encryptedKey encryptedData aad (crypto.GenerateKeys seed).1 =
        .ok p := by
  refine ⟨crypto.rsaEncryptOAEP seed aesKey,
    nonce ++ crypto.gcmSeal aesKey nonce p aad, rfl, ?_⟩
  have htake : (nonce ++ crypto.gcmSeal aesKey nonce p aad).take crypto.nonceSize
      = nonce := by
    rw [crypto.nonceSize, ← hnonce, List.take_left]
  have hdrop : (nonce ++ crypto.gcmSeal aesKey nonce p aad).drop crypto.nonceSize
      = crypto.gcmSeal aesKey nonce p aad := by
    rw [crypto.nonceSize, ← hnonce, List.drop_left]
  have hlen : ¬ (nonce ++ crypto.gcmSeal aesKey nonce p aad).length < crypto.nonceSize := by
    simp [crypto.gcmSeal, crypto.nonceSize, hnonce]
  simp only [crypto.GenerateKeys, crypto.Decrypt, crypto.rsaEncryptOAEP,
    crypto.rsaDecryptOAEP, if_pos rfl, if_neg hlen, htake, hdrop]
  simp [crypto.gcmOpen, crypto.gcmSeal]

/-- Witness for C1 at a concrete seed, AES key, 12-byte nonce, plaintext and
AAD. -/
theorem C1_encrypt_decrypt_roundtrip_witness :
    (List.replicate 12 0).length = 12 ∧
    ∃ encryptedKey encryptedData,
      crypto.Encrypt [1] (List.replicate 12 0) [7, 8] [2] (crypto.GenerateKeys 5).2 =
        .ok (encryptedKey, encryptedData) ∧
      crypto.Decrypt encryptedKey encryptedData [2] (crypto.GenerateKeys 5).1 =
        .ok [7, 8] :=
  ⟨by decide, C1_encrypt_decrypt_roundtrip 5 [1] (List.replicate 12 0) [7, 8] [2] (by decide)⟩

/-- C2: decrypting `Encrypt`'s output under any AAD different from the one
used at encryption fails with the single tampering/authentication error
(`authFailed`, the `CRYPTO_AUTH` kind) rather than returning a plaintext. -/
theorem C2_decrypt_wrong_aad_fails (seed : Nat) (aesKey nonce p aad aad' : List Nat)
    (hnonce : nonce.length = 12) (hne : aad' ≠ aad) :
    ∃ encryptedKey encryptedData,
      crypto.Encrypt aesKey nonce p aad (crypto.GenerateKeys seed).2 =
        .ok (encryptedKey, encryptedData) ∧
      crypto.Decrypt encryptedKey encryptedData aad' (crypto.GenerateKeys seed).1 =
        .error .authFailed := by
  refine ⟨crypto.rsaEncryptOAEP seed aesKey,
    nonce ++ crypto.gcmSeal aesKey nonce p aad, rfl, ?_⟩
  have htake : (nonce ++ crypto.gcmSeal aesKey nonce p aad).take crypto.nonceSize
      = nonce := by
    rw [crypto.nonceSize, ← hnonce, List.take_left]
  have hdrop : (nonce ++ crypto.gcmSeal aesKey nonce p aad).drop crypto.nonceSize
      = crypto.gcmSeal aesKey nonce p aad := by
    rw [crypto.nonceSize, ← hnonce, List.drop_left]
  have hlen : ¬ (nonce ++ crypto.gcmSeal aesKey nonce p aad).length < crypto.nonceSize := by
    simp [crypto.gcmSeal, crypto.nonceSize, hnonce]
  have hopen : crypto.gcmOpen aesKey nonce (crypto.gcmSeal aesKey nonce p aad) aad'
      = none := by
    have htag : crypto.gcmTag aesKey nonce aad ≠ crypto.gcmTag aesKey nonce aad' := by
      intro h
      exact hne ((crypto.gcmTag_inj _ _ _ _ _ _ h).2.2).symm
    simp [crypto.gcmOpen, crypto.gcmSeal, htag]
  simp only [crypto.GenerateKeys, crypto.Decrypt, crypto.rsaEncryptOAEP,
    crypto.rsaDecryptOAEP, if_pos rfl, if_neg hlen, htake, hdrop, hopen]
  simp [hopen]

/-- Witness for C2 at concrete inputs with AADs `[2]` versus `[3]`. -/
theorem C2_decrypt_wrong_aad_fails_witness :
    (List.replicate 12 0).length = 12 ∧ ([3] : List Nat) ≠ [2] ∧
    ∃ encryptedKey encryptedData,
      crypto.Encrypt [1] (List.replicate 12 0) [7, 8] [2] (crypto.GenerateKeys 5).2 =
        .ok (encryptedKey, encryptedData) ∧
      crypto.Decrypt encryptedKey encryptedData [3] (crypto.GenerateKeys 5).1 =
        .error .authFailed :=
  ⟨by decide, by decide,
    C2_decrypt_wrong_aad_fails 5 [1] (List.replicate 12 0) [7, 8] [2] [3]
      (by decide) (by decide)⟩

/-! ## C6: member addition must verify the person exists -/

/-- C6 counterexample: in the in-memory people store
(`pkg/people/personmemorystore.go`), adding a person id for which no person
exists to an existing group returns a nil error and changes the group's
membership — the store does not verify the person exists. -/
theorem C6_counterexample :
    (people.InMemoryStore.AddMemberToGroup ⟨[], [(1, sampleGroup1)]⟩ 1 2).2 = none ∧
    (people.InMemoryStore.AddMemberToGroup ⟨[], [(1, sampleGroup1)]⟩ 1 2).1.groups
      = [(1, { id := 1, name := "g", memberIDs := [2], createdAt := 0 })] ∧
    lookupKey (people.InMemoryStore.mk [] [(1, sampleGroup1)]).people 2 = none := by
  refine ⟨rfl, ?_, rfl⟩
  decide

/-- C6 (amended): the Firestore people store
(`internal/storage/firestore/people_firestore.go`) does verify the person:
when no person with id `p` is stored, `AddMemberToGroup` returns an error and
leaves the store — in particular every group's membership — unchanged. The
in-memory store checks only that the group exists (see the counterexample). -/
theorem C6_firestore_verifies_person (s : firestore.PeopleStore) (g p : UUID)
    (habsent : lookupKey s.people p = none) :
    (s.AddMemberToGroup g p).2 = some "person does not exist" ∧
    (s.AddMemberToGroup g p).1 = s := by
  constructor <;> simp [firestore.PeopleStore.AddMemberToGroup, habsent]

/-- Witness for the amended C6 at a concrete store holding group 1 and no
people. -/
theorem C6_firestore_verifies_person_witness :
    lookupKey (firestore.PeopleStore.mk [(1, sampleGroup1)] []).people 2 = none ∧
    ((firestore.PeopleStore.mk [(1, sampleGroup1)] []).AddMemberToGroup 1 2).2
      = some "person does not exist" ∧
    ((firestore.PeopleStore.mk [(1, sampleGroup1)] []).AddMemberToGroup 1 2).1
      = firestore.PeopleStore.mk [(1, sampleGroup1)] [] :=
  ⟨rfl, C6_firestore_verifies_person (firestore.PeopleStore.mk [(1, sampleGroup1)] []) 1 2 rfl⟩

/-! ## C7: location matcher distance thresholds -/

/-- C7: for matchers with case-insensitively equal names and coordinates on
both sides, the verdict is EXACT when the haversine distance is ≤ 0.05 km,
NONE when it is > 0.5 km, and POSSIBLE in between; in particular a distance of
exactly 0.05 km yields EXACT and exactly 0.5 km yields POSSIBLE, not NONE. -/
theorem C7_distance_thresholds (hv : ℚ → ℚ → ℚ → ℚ → ℚ)
    (m : locations.LocationMatcher) (l : locations.Location)
    (mlat mlon llat llon : ℚ)
    (hname : eqFold m.name l.matcher.name = true)
    (hm1 : m.lat = some mlat) (hm2 : m.lon = some mlon)
    (hl1 : l.matcher.lat = some llat) (hl2 : l.matcher.lon = some llon) :
    (hv mlat mlon llat llon ≤ 1/20 → m.Match hv l = .EXACT) ∧
    (hv mlat mlon llat llon > 1/2 → m.Match hv l = .NONE) ∧
    (1/20 < hv mlat mlon llat llon → hv mlat mlon llat llon ≤ 1/2 →
      m.Match hv l = .POSSIBLE) ∧
    (hv mlat mlon llat llon = 1/20 → m.Match hv l = .EXACT) ∧
    (hv mlat mlon llat llon = 1/2 → m.Match hv l = .POSSIBLE) := by
  have hMatch : m.Match hv l =
      (if hv mlat mlon llat llon ≤ 1/20 then MatchResult.EXACT
       else if hv mlat mlon llat llon > 1/2 then MatchResult.NONE
       else MatchResult.POSSIBLE) := by
    unfold locations.LocationMatcher.Match
    rw [hm1, hm2, hl1, hl2]
    simp only [hname, if_true]
  rw [hMatch]
  have h120 : (1 : ℚ)/20 < 1/2 := by norm_num
  refine ⟨?_, ?_, ?_, ?_, ?_⟩
  · intro h
    rw [if_pos h]
  · intro h
    have h1 : ¬ hv mlat mlon llat llon ≤ 1/20 := by
      intro hle
      have h2 : (1 : ℚ)/2 < 1/20 := lt_of_lt_of_le h hle
      exact absurd h2 (not_lt.mpr (le_of_lt h120))
    rw [if_neg h1, if_pos h]
  · intro h1 h2
    have h3 : ¬ hv mlat mlon llat llon ≤ 1/20 := not_le.mpr h1
    have h4 : ¬ hv mlat mlon llat llon > 1/2 := not_lt.mpr h2
    rw [if_neg h3, if_neg h4]
  · intro h
    rw [if_pos (le_of_eq h)]
  · intro h
    have h1 : ¬ hv mlat mlon llat llon ≤ 1/20 := by
      rw [h]
      exact not_le.mpr h120
    have h2 : ¬ hv mlat mlon llat llon > 1/2 := by
      rw [h]
      exact lt_irrefl _
    rw [if_neg h1, if_neg h2]

/-- Witness for C7 at a concrete matcher/location pair with equal names and
coordinates, under haversine oracles pinned to 0.05 km and 0.5 km. -/
theorem C7_distance_thresholds_witness :
    eqFold matcherACoord.name sampleLoc21.matcher.name = true ∧
    matcherACoord.Match (hvConst (1/20)) sampleLoc21 = .EXACT ∧
    matcherACoord.Match (hvConst (1/2)) sampleLoc21 = .POSSIBLE :=
  ⟨by decide,
    (C7_distance_thresholds (hvConst (1/20)) matcherACoord sampleLoc21 0 0 0 0
      (by decide) rfl rfl rfl rfl).2.2.2.1 rfl,
    (C7_distance_thresholds (hvConst (1/2)) matcherACoord sampleLoc21 0 0 0 0
      (by decide) rfl rfl rfl rfl).2.2.2.2 rfl⟩

/-! ## C10: in-memory Add/AddPerson never fail and overwrite silently -/

/-- C10: the in-memory stores' `Add` and `AddPerson` always return a nil
error; the added entity is stored under its id, silently replacing any
previous entity with that id (last write wins); all other ids are untouched;
and key uniqueness is preserved, so each id maps to at most one entity. -/
theorem C10_inmem_add_overwrites (ls : locations.InMemoryStore)
    (ps : people.InMemoryStore) (loc : locations.Location) (p : people.Person) :
    (ls.Add loc).2 = none ∧
    lookupKey (ls.Add loc).1.locations loc.id = some loc ∧
    (∀ j, j ≠ loc.id → lookupKey (ls.Add loc).1.locations j = lookupKey ls.locations j) ∧
    ((ls.locations.map Prod.fst).Nodup → ((ls.Add loc).1.locations.map Prod.fst).Nodup) ∧
    (ps.AddPerson p).2 = none ∧
    lookupKey (ps.AddPerson p).1.people p.id = some p ∧
    (∀ j, j ≠ p.id → lookupKey (ps.AddPerson p).1.people j = lookupKey ps.people j) ∧
    ((ps.people.map Prod.fst).Nodup → ((ps.AddPerson p).1.people.map Prod.fst).Nodup) := by
  refine ⟨rfl, ?_, ?_, ?_, rfl, ?_, ?_, ?_⟩
  · exact lookupKey_mapInsert_self ls.locations loc.id loc
  · intro j hj
    exact lookupKey_mapInsert_ne ls.locations loc.id j loc hj
  · intro h
    exact nodup_keys_mapInsert ls.locations loc.id loc h
  · exact lookupKey_mapInsert_self ps.people p.id p
  · intro j hj
    exact lookupKey_mapInsert_ne ps.people p.id j p hj
  · intro h
    exact nodup_keys_mapInsert ps.people p.id p h

/-- Witness for C10: adding location 3 over an existing binding for id 3, and
person 7 over an existing binding for id 7. -/
theorem C10_inmem_add_overwrites_witness :
    ((locations.InMemoryStore.mk [(3, sampleExactLoc)]).Add sampleLoc3).2 = none ∧
    lookupKey ((locations.InMemoryStore.mk [(3, sampleExactLoc)]).Add sampleLoc3).1.locations 3
      = some sampleLoc3 ∧
    lookupKey ((locations.InMemoryStore.mk [(3, sampleExactLoc)]).Add sampleLoc3).1.locations 99
      = lookupKey [(3, sampleExactLoc)] 99 ∧
    (((locations.InMemoryStore.mk [(3, sampleExactLoc)]).Add sampleLoc3).1.locations.map
        Prod.fst).Nodup ∧
    ((people.InMemoryStore.mk [(7, samplePerson31)] []).AddPerson samplePerson7).2 = none ∧
    lookupKey ((people.InMemoryStore.mk [(7, samplePerson31)] []).AddPerson samplePerson7).1.people 7
      = some samplePerson7 := by
  have hloc3 : sampleLoc3.id = 3 := rfl
  have hp7 : samplePerson7.id = 7 := rfl
  obtain ⟨h1, h2, h3, h4, h5, h6, _, _⟩ :=
    C10_inmem_add_overwrites (locations.InMemoryStore.mk [(3, sampleExactLoc)])
      (people.InMemoryStore.mk [(7, samplePerson31)] []) sampleLoc3 samplePerson7
  exact ⟨h1, by rw [← hloc3]; exact h2, by rw [h3 99 (by decide)],
    h4 (by decide), h5, by rw [← hp7]; exact h6⟩

/-! ## C3, C4, C8, C9: the reconciler -/

/-- C3: global-ID precedence. If a foreign location (or person) carries a
global id for which the store's `FindByGlobalID` succeeds with local entity
`L`, then `ProcessPayload` maps the foreign id to `L.id`. The haversine oracle
and the stores' `listAllForMatching` snapshots are universally quantified and
do not appear in the conclusion, so the matcher comparison cannot change the
mapping. -/
theorem C3_global_id_precedence (hv : ℚ → ℚ → ℚ → ℚ → ℚ)
    (r : reconciliation.Reconciler) (payload : sharing.SharedPayload) :
    ∃ res, r.ProcessPayload hv payload = .ok res ∧
      (∀ fid F g L, (payload.locations.map Prod.fst).Nodup →
        lookupKey payload.locations fid = some F →
        F.globalID = some g →
        r.localLocationStore.findByGlobalID g = .ok L →
        lookupKey res.locationMappings fid = some L.id) ∧
      (∀ fid F g P, (payload.people.map Prod.fst).Nodup →
        lookupKey payload.people fid = some F →
        F.globalID = some g →
        r.localPersonStore.findByGlobalID g = .ok P →
        lookupKey res.personMappings fid = some P.id) := by
  refine ⟨_, rfl, ?_, ?_⟩
  · intro fid F g L hnd hF hg hfind
    rw [reconciliation.lookupKey_processLocations hv _ _ _ hnd fid, hF]
    simp [reconciliation.reconcileLocation, hg, hfind]
  · intro fid F g P hnd hF hg hfind
    rw [reconciliation.lookupKey_processPeople _ _ _ hnd fid, hF]
    simp [reconciliation.reconcilePerson, hg, hfind]

/-- Witness for C3: foreign location 90 (global id `gp`) maps to local 21 and
foreign person 91 (global id `gq`) maps to local 31, despite their matcher
names not matching anything. -/
theorem C3_global_id_precedence_witness :
    ∃ res,
      sampleReconciler.ProcessPayload (hvConst 0) samplePayloadGlobal = .ok res ∧
      lookupKey res.locationMappings 90 = some 21 ∧
      lookupKey res.personMappings 91 = some 31 := by
  obtain ⟨res, hres, hloc, hper⟩ :=
    C3_global_id_precedence (hvConst 0) sampleReconciler samplePayloadGlobal
  exact ⟨res, hres,
    hloc 90 sampleForeignLoc "gp" sampleLoc21 (by decide) rfl rfl rfl,
    hper 91 sampleForeignPerson "gq" samplePerson31 (by decide) rfl rfl rfl⟩

/-- C4: for every foreign location with no global-ID match, scanning the
`listAllForMatching` snapshot in order yields the first EXACT match when one
exists (the scan stops there, so a later EXACT overrides any earlier
POSSIBLE); otherwise the first POSSIBLE match; otherwise the foreign id is
absent from the mapping. -/
theorem C4_first_exact_else_first_possible (hv : ℚ → ℚ → ℚ → ℚ → ℚ)
    (r : reconciliation.Reconciler) (payload : sharing.SharedPayload) :
    ∃ res, r.ProcessPayload hv payload = .ok res ∧
      ∀ fid F, (payload.locations.map Prod.fst).Nodup →
        lookupKey payload.locations fid = some F →
        (∀ g, F.globalID = some g →
          ∀ L, r.localLocationStore.findByGlobalID g ≠ .ok L) →
        lookupKey res.locationMappings fid =
          firstExactElsePossibleLoc hv F.matcher
            r.localLocationStore.listAllForMatching.1 := by
  refine ⟨_, rfl, ?_⟩
  intro fid F hnd hF hng
  rw [reconciliation.lookupKey_processLocations hv _ _ _ hnd fid, hF]
  show reconciliation.reconcileLocation hv _ _ F = _
  unfold reconciliation.reconcileLocation
  cases hgid : F.globalID with
  | none => simp [reconciliation.locMatchLoop_none]
  | some g =>
      cases hfind : r.localLocationStore.findByGlobalID g with
      | ok L => exact absurd hfind (hng g hgid L)
      | error e => simp [hfind, reconciliation.locMatchLoop_none]

/-- Witness for C4: foreign location 90 (no global id, matcher a/c) scans the
snapshot [11: POSSIBLE, 12: EXACT, 21: EXACT]; the first EXACT (id 12) wins
over the earlier POSSIBLE (id 11). -/
theorem C4_first_exact_else_first_possible_witness :
    ∃ res,
      sampleReconciler.ProcessPayload (hvConst 0) samplePayloadNoGlobal = .ok res ∧
      lookupKey res.locationMappings 90 = some 12 := by
  obtain ⟨res, hres, h⟩ :=
    C4_first_exact_else_first_possible (hvConst 0) sampleReconciler samplePayloadNoGlobal
  refine ⟨res, hres, ?_⟩
  have h2 := h 90 sampleForeignLocNoGlobal (by decide) rfl
    (fun g hg L => by simp [sampleForeignLocNoGlobal] at hg)
  exact h2.trans (by decide)

/-- C8 counterexample: the claim fails when only the store CONTENTS are
unchanged between the two runs. `storeTiedA` and `storeTiedB` hold the very
same bindings (their entry lists are permutations of each other), differing
only in the snapshot order of `ListAllForMatching` — which is Go map
iteration order, randomized per run. The foreign location 90 has two tied
POSSIBLE matches (locals 1 and 2, no EXACT), and `ProcessPayload` maps it to
local 1 under one snapshot order but to local 2 under the other, so the two
runs do not yield equal `MappingResult`s. -/
theorem C8_counterexample :
    storeTiedA.locations.Perm storeTiedB.locations ∧
    reconcilerTiedA.ProcessPayload (hvConst 0) samplePayloadNoGlobal =
      .ok { locationMappings := [(90, 1)], personMappings := [] } ∧
    reconcilerTiedB.ProcessPayload (hvConst 0) samplePayloadNoGlobal =
      .ok { locationMappings := [(90, 2)], personMappings := [] } ∧
    lookupKey ([(90, 1)] : List (UUID × UUID)) 90 ≠
      lookupKey ([(90, 2)] : List (UUID × UUID)) 90 :=
  ⟨by decide, rfl, rfl, by decide⟩

/-- C8 (amended): `ProcessPayload` is deterministic once the stores'
`listAllForMatching` snapshot (contents in their observed iteration order) is
fixed: two runs over the same payload contents — the payload's Go maps
iterated in any two orders, running it twice over the very same payload being
the special case of equal orders — produce equal `MappingResult`s as maps.
When the snapshot order itself differs between runs, entities with only tied
POSSIBLE (or tied EXACT) matches may map to different local ids (see the
counterexample). -/
theorem C8_process_payload_idempotent (hv : ℚ → ℚ → ℚ → ℚ → ℚ)
    (r : reconciliation.Reconciler) (pay1 pay2 : sharing.SharedPayload)
    (hlup : pay1.locations.Perm pay2.locations)
    (hpp : pay1.people.Perm pay2.people)
    (hndl : (pay1.locations.map Prod.fst).Nodup)
    (hndp : (pay1.people.map Prod.fst).Nodup) :
    ∃ res1 res2,
      r.ProcessPayload hv pay1 = .ok res1 ∧
      r.ProcessPayload hv pay2 = .ok res2 ∧
      (∀ fid, lookupKey res1.locationMappings fid =
        lookupKey res2.locationMappings fid) ∧
      (∀ fid, lookupKey res1.personMappings fid =
        lookupKey res2.personMappings fid) := by
  have hndl2 : (pay2.locations.map Prod.fst).Nodup :=
    ((hlup.map Prod.fst).nodup_iff).mp hndl
  have hndp2 : (pay2.people.map Prod.fst).Nodup :=
    ((hpp.map Prod.fst).nodup_iff).mp hndp
  refine ⟨_, _, rfl, rfl, ?_, ?_⟩
  · intro fid
    rw [reconciliation.lookupKey_processLocations hv _ _ _ hndl fid,
      reconciliation.lookupKey_processLocations hv _ _ _ hndl2 fid,
      lookupKey_perm _ _ hlup hndl fid]
  · intro fid
    rw [reconciliation.lookupKey_processPeople _ _ _ hndp fid,
      reconciliation.lookupKey_processPeople _ _ _ hndp2 fid,
      lookupKey_perm _ _ hpp hndp fid]

/-- Witness for C8: the two-entry payload iterated in both orders produces the
same mappings for both foreign ids. -/
theorem C8_process_payload_idempotent_witness :
    ∃ res1 res2,
      sampleReconciler.ProcessPayload (hvConst 0) samplePayloadOrder1 = .ok res1 ∧
      sampleReconciler.ProcessPayload (hvConst 0) samplePayloadOrder2 = .ok res2 ∧
      lookupKey res1.locationMappings 90 = lookupKey res2.locationMappings 90 ∧
      lookupKey res1.locationMappings 92 = lookupKey res2.locationMappings 92 := by
  obtain ⟨res1, res2, h1, h2, hl, _⟩ :=
    C8_process_payload_idempotent (hvConst 0) sampleReconciler
      samplePayloadOrder1 samplePayloadOrder2
      (by decide) (by decide) (by decide) (by decide)
  exact ⟨res1, res2, h1, h2, hl 90, hl 92⟩

/-- C9 counterexample: with a location store whose list read fails (it returns
an empty slice alongside an error), `ProcessPayload` on a payload holding a
foreign location still returns a nil error and a mapping computed from the
partial data, instead of surfacing the error. -/
theorem C9_counterexample :
    badLocStore.listAllForMatching.2 = some "storage failure" ∧
    (reconciliation.Reconciler.mk badLocStore emptyPeopleView).ProcessPayload
      (hvConst 0) samplePayloadNoGlobal = .ok ⟨[], []⟩ :=
  ⟨rfl, rfl⟩

/-- C9 (amended): `ProcessPayload` ignores store-read errors. Even when both
`listAllForMatching` reads report errors, it returns a nil error together with
the mapping computed from whatever slices the stores returned alongside their
errors. -/
theorem C9_process_payload_ignores_store_errors (hv : ℚ → ℚ → ℚ → ℚ → ℚ)
    (r : reconciliation.Reconciler) (payload : sharing.SharedPayload)
    (e1 e2 : String)
    (h1 : r.localLocationStore.listAllForMatching.2 = some e1)
    (h2 : r.localPersonStore.listAllForMatching.2 = some e2) :
    r.ProcessPayload hv payload = .ok
      { locationMappings := reconciliation.processLocations hv
          r.localLocationStore r.localLocationStore.listAllForMatching.1
          payload.locations,
        personMappings := reconciliation.processPeople r.localPersonStore
          r.localPersonStore.listAllForMatching.1 payload.people } := rfl

/-- Witness for the amended C9 at stores that both report list-read errors. -/
theorem C9_process_payload_ignores_store_errors_witness :
    badLocStore.listAllForMatching.2 = some "storage failure" ∧
    badPeopleView.listAllForMatching.2 = some "people storage failure" ∧
    (reconciliation.Reconciler.mk badLocStore badPeopleView).ProcessPayload
      (hvConst 0) samplePayloadOrder1 = .ok
      { locationMappings := reconciliation.processLocations (hvConst 0)
          badLocStore badLocStore.listAllForMatching.1
          samplePayloadOrder1.locations,
        personMappings := reconciliation.processPeople badPeopleView
          badPeopleView.listAllForMatching.1 samplePayloadOrder1.people } :=
  ⟨rfl, rfl,
    C9_process_payload_ignores_store_errors (hvConst 0)
      (reconciliation.Reconciler.mk badLocStore badPeopleView)
      samplePayloadOrder1 "storage failure" "people storage failure" rfl rfl⟩

/-! ## C5: payload builder — groups included, group members not gathered -/

namespace app

theorem gatherPersons_groups (a : App) (pl : sharing.SharedPayload)
    (ps : List UUID) : (gatherPersons a pl ps).groups = pl.groups := by
  induction ps generalizing pl with
  | nil => rfl
  | cons pid rest ih =>
      cases h : a.getPerson pid with
      | ok p => simp [gatherPersons, h, ih]
      | error e => simp [gatherPersons, h, ih]

theorem gatherPersons_people (a : App) (pl : sharing.SharedPayload)
    (ps : List UUID) :
    (gatherPersons a pl ps).people = gatherPersonsOnly a pl.people ps := by
  induction ps generalizing pl with
  | nil => rfl
  | cons pid rest ih =>
      cases h : a.getPerson pid with
      | ok p => simp [gatherPersons, gatherPersonsOnly, h, ih]
      | error e => simp [gatherPersons, gatherPersonsOnly, h, ih]

theorem gatherGroups_people (a : App) (pl : sharing.SharedPayload)
    (gs : List UUID) : (gatherGroups a pl gs).people = pl.people := by
  induction gs generalizing pl with
  | nil => rfl
  | cons gid rest ih =>
      cases h : a.getGroup gid with
      | ok g => simp [gatherGroups, h, ih]
      | error e => simp [gatherGroups, h, ih]

theorem gatherTarget_people (a : App) (pl : sharing.SharedPayload)
    (t : intentions.Target) :
    (gatherTarget a pl t).people =
      (match t with
       | .location _ => pl.people
       | .proximity ps _ => gatherPersonsOnly a pl.people ps) := by
  cases t with
  | location lid =>
      cases h : a.getLocation lid with
      | ok loc => simp [gatherTarget, h]
      | error e => simp [gatherTarget, h]
  | proximity ps gs =>
      show (gatherGroups a (gatherPersons a pl ps) gs).people = _
      rw [gatherGroups_people, gatherPersons_people]

theorem gatherTargets_people (a : App) (pl : sharing.SharedPayload)
    (ts : List intentions.Target) :
    (gatherTargets a pl ts).people = gatherPeopleOnly a pl.people ts := by
  induction ts generalizing pl with
  | nil => rfl
  | cons t rest ih =>
      show (gatherTargets a (gatherTarget a pl t) rest).people = _
      rw [ih]
      cases t with
      | location lid =>
          have h1 := gatherTarget_people a pl (.location lid)
          simp only at h1
          rw [h1]
          rfl
      | proximity ps gs =>
          have h1 := gatherTarget_people a pl (.proximity ps gs)
          simp only at h1
          rw [h1]
          rfl

theorem gatherPersons_intention (a : App) (pl : sharing.SharedPayload)
    (ps : List UUID) : (gatherPersons a pl ps).intention = pl.intention := by
  induction ps generalizing pl with
  | nil => rfl
  | cons pid rest ih =>
      cases h : a.getPerson pid with
      | ok p => simp [gatherPersons, h, ih]
      | error e => simp [gatherPersons, h, ih]

theorem gatherGroups_intention (a : App) (pl : sharing.SharedPayload)
    (gs : List UUID) : (gatherGroups a pl gs).intention = pl.intention := by
  induction gs generalizing pl with
  | nil => rfl
  | cons gid rest ih =>
      cases h : a.getGroup gid with
      | ok g => simp [gatherGroups, h, ih]
      | error e => simp [gatherGroups, h, ih]

theorem gatherTarget_intention (a : App) (pl : sharing.SharedPayload)
    (t : intentions.Target) : (gatherTarget a pl t).intention = pl.intention := by
  cases t with
  | location lid =>
      cases h : a.getLocation lid with
      | ok loc => simp [gatherTarget, h]
      | error e => simp [gatherTarget, h]
  | proximity ps gs =>
      show (gatherGroups a (gatherPersons a pl ps) gs).intention = _
      rw [gatherGroups_intention, gatherPersons_intention]

theorem gatherTargets_intention (a : App) (pl : sharing.SharedPayload)
    (ts : List intentions.Target) :
    (gatherTargets a pl ts).intention = pl.intention := by
  induction ts generalizing pl with
  | nil => rfl
  | cons t rest ih =>
      show (gatherTargets a (gatherTarget a pl t) rest).intention = _
      rw [ih, gatherTarget_intention]

theorem gatherGroups_preserves (a : App) (g : people.Group)
    (hwf : ∀ gid gg, a.getGroup gid = .ok gg → gg.id = gid)
    (hgg : a.getGroup g.id = .ok g) :
    ∀ (pl : sharing.SharedPayload) (gs : List UUID),
      lookupKey pl.groups g.id = some g →
      lookupKey (gatherGroups a pl gs).groups g.id = some g := by
  intro pl gs
  induction gs generalizing pl with
  | nil => intro h; exact h
  | cons gid rest ih =>
      intro hlook
      cases hget : a.getGroup gid with
      | error e =>
          simp only [gatherGroups, hget]
          exact ih pl hlook
      | ok g2 =>
          simp only [gatherGroups, hget]
          by_cases hid : g2.id = g.id
          · have hgid : gid = g.id := (hwf gid g2 hget).symm.trans hid
            rw [hgid] at hget
            have hg2 : g2 = g := (Except.ok.inj (hgg.symm.trans hget)).symm
            apply ih
            rw [hg2]
            exact lookupKey_mapInsert_self pl.groups g.id g
          · apply ih
            have h4 : g.id ≠ g2.id := fun h => hid h.symm
            rw [lookupKey_mapInsert_ne pl.groups g2.id g.id g2 h4]
            exact hlook

theorem gatherGroups_contains (a : App) (g : people.Group) (gid : UUID)
    (hwf : ∀ gid2 gg, a.getGroup gid2 = .ok gg → gg.id = gid2)
    (hok : a.getGroup gid = .ok g) :
    ∀ (pl : sharing.SharedPayload) (gs : List UUID), gid ∈ gs →
      lookupKey (gatherGroups a pl gs).groups g.id = some g := by
  have hgid : g.id = gid := hwf gid g hok
  have hgg : a.getGroup g.id = .ok g := by rw [hgid]; exact hok
  intro pl gs
  induction gs generalizing pl with
  | nil => intro h; exact absurd h (List.not_mem_nil gid)
  | cons gid2 rest ih =>
      intro hmem
      by_cases heq : gid2 = gid
      · subst heq
        simp only [gatherGroups, hok]
        apply gatherGroups_preserves a g hwf hgg
        show lookupKey (mapInsert pl.groups g.id g) g.id = some g
        exact lookupKey_mapInsert_self pl.groups g.id g
      · have hmem2 : gid ∈ rest := by
          rcases List.mem_cons.mp hmem with h | h
          · exact absurd h.symm heq
          · exact h
        cases hget : a.getGroup gid2 with
        | error e =>
            simp only [gatherGroups, hget]
            exact ih pl hmem2
        | ok g2 =>
            simp only [gatherGroups, hget]
            exact ih _ hmem2

theorem gatherTarget_preserves (a : App) (g : people.Group)
    (hwf : ∀ gid gg, a.getGroup gid = .ok gg → gg.id = gid)
    (hgg : a.getGroup g.id = .ok g)
    (pl : sharing.SharedPayload) (t : intentions.Target)
    (hlook : lookupKey pl.groups g.id = some g) :
    lookupKey (gatherTarget a pl t).groups g.id = some g := by
  cases t with
  | location lid =>
      cases h : a.getLocation lid with
      | ok loc => simpa [gatherTarget, h] using hlook
      | error e => simpa [gatherTarget, h] using hlook
  | proximity ps gs =>
      show lookupKey (gatherGroups a (gatherPersons a pl ps) gs).groups g.id = some g
      apply gatherGroups_preserves a g hwf hgg
      rw [gatherPersons_groups]
      exact hlook

theorem gatherTargets_preserves (a : App) (g : people.Group)
    (hwf : ∀ gid gg, a.getGroup gid = .ok gg → gg.id = gid)
    (hgg : a.getGroup g.id = .ok g) :
    ∀ (pl : sharing.SharedPayload) (ts : List intentions.Target),
      lookupKey pl.groups g.id = some g →
      lookupKey (gatherTargets a pl ts).groups g.id = some g := by
  intro pl ts
  induction ts generalizing pl with
  | nil => intro h; exact h
  | cons t rest ih =>
      intro hlook
      show lookupKey (gatherTargets a (gatherTarget a pl t) rest).groups g.id = some g
      exact ih _ (gatherTarget_preserves a g hwf hgg pl t hlook)

theorem gatherTargets_contains (a : App) (g : people.Group) (gid : UUID)
    (ps gs : List UUID)
    (hwf : ∀ gid2 gg, a.getGroup gid2 = .ok gg → gg.id = gid2)
    (hok : a.getGroup gid = .ok g) :
    ∀ (pl : sharing.SharedPayload) (ts : List intentions.Target),
      intentions.Target.proximity ps gs ∈ ts → gid ∈ gs →
      lookupKey (gatherTargets a pl ts).groups g.id = some g := by
  have hgg : a.getGroup g.id = .ok g := by rw [hwf gid g hok]; exact hok
  intro pl ts
  induction ts generalizing pl with
  | nil => intro h _; exact absurd h (List.not_mem_nil _)
  | cons t rest ih =>
      intro hmem hgid
      rcases List.mem_cons.mp hmem with h | h
      · have hstep :
            lookupKey (gatherTarget a pl t).groups g.id = some g := by
          rw [← h]
          show lookupKey (gatherGroups a (gatherPersons a pl ps) gs).groups g.id = some g
          exact gatherGroups_contains a g gid hwf hok _ gs hgid
        show lookupKey (gatherTargets a (gatherTarget a pl t) rest).groups g.id = some g
        exact gatherTargets_preserves a g hwf hgg _ rest hstep
      · show lookupKey (gatherTargets a (gatherTarget a pl t) rest).groups g.id = some g
        exact ih _ h hgid

end app

/-- C5 counterexample: in `sampleAppC5` the people store holds person 7 and
group 5's membership is exactly [7]; building the payload for intention 1
(whose only target is proximity to group 5) includes the group but leaves the
payload's people map empty — the group's members are not gathered, although
person 7 is present in the local store. -/
theorem C5_counterexample :
    sampleAppC5.buildSharedPayload 1 =
      .ok { intention := sampleIntentionProx, locations := [],
            groups := [(5, sampleGroup5)], people := [] } ∧
    sampleGroup5.memberIDs = [7] ∧
    sampleAppC5.getPerson 7 = .ok samplePerson7 :=
  ⟨rfl, rfl, rfl⟩

/-- C5 (amended): for every intention whose targets include a ProximityTarget,
the built payload contains each group of the target that loads successfully
(under the store well-formedness that a group loaded by id `gid` has id `gid`);
however group members are NOT added to the payload's people map: the people
map is exactly the persons gathered from the `personIDs` of the proximity
targets, so a group member not listed there is absent even when the local
people store holds it. -/
theorem C5_groups_included_members_not (a : app.App) (intentionID : UUID)
    (payload : sharing.SharedPayload)
    (hwf : ∀ gid g, a.getGroup gid = .ok g → g.id = gid)
    (hok : a.buildSharedPayload intentionID = .ok payload) :
    (∀ personIDs groupIDs gid g,
        intentions.Target.proximity personIDs groupIDs ∈ payload.intention.targets →
        gid ∈ groupIDs → a.getGroup gid = .ok g →
        lookupKey payload.groups g.id = some g) ∧
    payload.people = app.gatherPeopleOnly a [] payload.intention.targets := by
  unfold app.App.buildSharedPayload at hok
  cases hfind : a.intentions.find? (fun intent => intent.id == intentionID) with
  | none =>
      rw [hfind] at hok
      exact absurd hok (by simp)
  | some targetIntention =>
      rw [hfind] at hok
      simp only [Except.ok.injEq] at hok
      subst hok
      have hint : (app.gatherTargets a
          { intention := targetIntention, locations := [], people := [], groups := [] }
          targetIntention.targets).intention = targetIntention :=
        app.gatherTargets_intention a _ _
      constructor
      · intro personIDs groupIDs gid g hmem hgid hokg
        rw [hint] at hmem
        exact app.gatherTargets_contains a g gid personIDs groupIDs hwf hokg _ _ hmem hgid
      · rw [hint, app.gatherTargets_people]

/-- Witness for the amended C5 at `sampleAppC5`: the payload built for
intention 1 contains group 5, and its people map is exactly the (empty)
person gathering of the proximity target's person ids. -/
theorem C5_groups_included_members_not_witness :
    sampleAppC5.buildSharedPayload 1 =
      .ok { intention := sampleIntentionProx, locations := [],
            groups := [(5, sampleGroup5)], people := [] } ∧
    lookupKey ([(5, sampleGroup5)] : List (UUID × people.Group)) 5 = some sampleGroup5 ∧
    ([] : List (UUID × people.Person)) =
      app.gatherPeopleOnly sampleAppC5 [] sampleIntentionProx.targets := by
  have hwf : ∀ gid g, sampleAppC5.getGroup gid = .ok g → g.id = gid := by
    intro gid g h
    by_cases h5 : gid = 5
    · subst h5
      simp [sampleAppC5] at h
      subst h
      rfl
    · simp [sampleAppC5, h5] at h
  obtain ⟨h1, h2⟩ := C5_groups_included_members_not sampleAppC5 1
    { intention := sampleIntentionProx, locations := [],
      groups := [(5, sampleGroup5)], people := [] } hwf rfl
  refine ⟨rfl, ?_, ?_⟩
  · exact h1 [] [5] 5 sampleGroup5 (by decide) (by decide) rfl
  · exact h2
